import Mathlib

/-!
Verification of the CEAT scheduler (files `program/ceat.py` and
`program/process.py`) against its design specification.

The Python floats are modelled as exact rationals (`ℚ`), matching the
spec's "positive real" idealization.  Python object identity for tasks is
modelled by list position: a task is referred to by its index in the input
task list (the program builds one fresh `Task` object per input row, so
list position and object identity coincide).  Python `set` iteration order
is modelled by insertion order where the program iterates over a set
(`clusters`); in every state the construction reaches, a core belongs to
at most one cluster, so the outcome does not depend on that order.
-/

namespace Ceat

/-- `Task` from `ceat.py`: id, execution requirement, period and the
per-core rate vector.  The mutable `remaining_period` field lives in the
frame-driver state (`DState`) below. -/
structure Task where
  id : ℕ
  exec : ℚ
  period : ℚ
  rates : List ℚ

instance : Inhabited Task := ⟨⟨0, 0, 0, []⟩⟩

/-- List indexing `l[n]` as Python performs it, with default `d` out of
range (a reachable Python call never goes out of range). -/
def nthQ (d : ℚ) : List ℚ → ℕ → ℚ
  | [], _ => d
  | x :: _, 0 => x
  | _ :: xs, n + 1 => nthQ d xs n

/-- `tasks[n]` (default only out of range, which no reachable call hits). -/
def nthTask : List Task → ℕ → Task
  | [], _ => default
  | t :: _, 0 => t
  | _ :: ts, n + 1 => nthTask ts n

/-- `Task.core_count = len(self.rates)`. -/
def Task.core_count (t : Task) : ℕ := t.rates.length

/-- `get_utilizations`: `[self.exec / (self.period * rate) for rate in self.rates]`. -/
def Task.get_utilizations (t : Task) : List ℚ :=
  t.rates.map (fun rate => t.exec / (t.period * rate))

/-- `get_utilization(core) = get_utilizations()[core.core_id]` (total-ized
with a default; every reachable call has `core < core_count`). -/
def Task.get_utilization (t : Task) (core : ℕ) : ℚ :=
  nthQ 0 t.get_utilizations core

/-- `get_share(core, frame_length) = exec * frame_length / (period * rates[core])`. -/
def Task.get_share (t : Task) (core : ℕ) (frame_length : ℚ) : ℚ :=
  t.exec * frame_length / (t.period * nthQ 0 t.rates core)

/-- Python `min(list_of_floats)`; junk value `0` on `[]` (Python would
raise `ValueError`; every reachable call is on a nonempty list). -/
def listMin : List ℚ → ℚ
  | [] => 0
  | x :: xs => xs.foldl min x

/-- `Scheduler.average_computation_demand`. -/
def average_computation_demand (task : Task) (first_core second_core : ℕ)
    (frame_length : ℚ) : ℚ :=
  (task.get_share first_core frame_length + task.get_share second_core frame_length) / 2

/-- `Cluster` from `ceat.py`: the canonically ordered core pair, the spare
capacity and the set of allocated tasks (task indices, insertion order). -/
structure Cluster where
  first_core : ℕ
  second_core : ℕ
  spare_capacity : ℚ
  tasks_allocated : List ℕ

instance : Inhabited Cluster := ⟨⟨0, 0, 0, []⟩⟩

/-- `core in cluster`. -/
def Cluster.containsCore (cl : Cluster) (core : ℕ) : Bool :=
  cl.first_core == core || cl.second_core == core

/-- Cluster creation as performed inside `construct_clusters`: cores are
stored in canonical (lower id first) order, `spare_capacity` is set to
`2 * frame_length` and immediately reduced by the creating task's demand,
and that task is the only allocated one. -/
def mkCluster (c1 c2 : ℕ) (frame_length demand : ℚ) (t : ℕ) : Cluster :=
  if c1 < c2 then ⟨c1, c2, 2 * frame_length - demand, [t]⟩
  else ⟨c2, c1, 2 * frame_length - demand, [t]⟩

/-- Python `enumerate` over a list of rationals. -/
def enumFromQ (i : ℕ) : List ℚ → List (ℕ × ℚ)
  | [] => []
  | x :: xs => (i, x) :: enumFromQ (i + 1) xs

/-- First-minimum fold: scan a list keeping the current best, replacing it
only on a strictly smaller key.  This is exactly the accumulator pattern of
`task_with_lowest_share` (`if lowest_requirement is None or utilization <
lowest_requirement`). -/
def argminF {α : Type} (key : α → ℚ) (l : List α) : Option α :=
  l.foldl
    (fun acc x =>
      match acc with
      | none => some x
      | some b => if key x < key b then some x else some b)
    none

/-- Helper for reasoning about `argminF`: the same scan with an explicit
initial best. -/
def argmin1 {α : Type} (key : α → ℚ) : α → List α → α
  | b, [] => b
  | b, x :: l => argmin1 key (if key x < key b then x else b) l

/-- Specification-style first minimum: the first element of the list whose
key equals the minimal key ("globally minimum value, ties broken by
first-encountered order"). -/
def firstMinBy {α : Type} (key : α → ℚ) (l : List α) : Option α :=
  match (l.map key).min? with
  | none => none
  | some m => l.find? (fun x => decide (key x = m))

/-- The (task index, core id) candidate pairs scanned by the double loop of
`task_with_lowest_share`, in scan order: tasks in list order (skipping
allocated ones), cores in ascending index (skipping pairs already in
`tasks_cores_considered`). -/
def candCores (i : ℕ) (cons : List (ℕ × ℕ)) : List (ℕ × ℚ) → List (ℕ × ℕ)
  | [] => []
  | p :: ps => (if (i, p.1) ∈ cons then [] else [(i, p.1)]) ++ candCores i cons ps

def candAux (alloc : List ℕ) (cons : List (ℕ × ℕ)) : ℕ → List Task → List (ℕ × ℕ)
  | _, [] => []
  | i, t :: ts =>
      (if i ∈ alloc then [] else candCores i cons (enumFromQ 0 t.get_utilizations))
      ++ candAux alloc cons (i + 1) ts

def candidatePairs (tasks : List Task) (alloc : List ℕ) (cons : List (ℕ × ℕ)) :
    List (ℕ × ℕ) :=
  candAux alloc cons 0 tasks

/-- Utilization of a candidate pair. -/
def pairUtil (tasks : List Task) (p : ℕ × ℕ) : ℚ :=
  (nthTask tasks p.1).get_utilization p.2

/-- `Scheduler.task_with_lowest_share`: scan all candidate pairs keeping
the one with the strictly lowest utilization; `None` when no candidate
exists (`if core_lowest:` — a `Core` object is always truthy, so this is a
`None` test). -/
def task_with_lowest_share (tasks : List Task) (alloc : List ℕ)
    (cons : List (ℕ × ℕ)) : Option (ℕ × ℕ) :=
  argminF (pairUtil tasks) (candidatePairs tasks alloc cons)

/-- `Scheduler.find_second_core`: `lowest_value = min(utilizations)`; scan
`enumerate(utilizations)`, skipping allocated cores; the first free core is
taken unconditionally (`min_value is None`), later free cores replace it
only when `lowest_value < requirement < min_value`.  `none` models the
`assert min_core is not None` failure. -/
def fscStep (allocated_cores : List ℕ) (lowest_value : ℚ)
    (acc : Option (ℕ × ℚ)) (p : ℕ × ℚ) : Option (ℕ × ℚ) :=
  if p.1 ∈ allocated_cores then acc
  else
    match acc with
    | none => some p
    | some b => if lowest_value < p.2 ∧ p.2 < b.2 then some p else some b

def find_second_core (task : Task) (allocated_cores : List ℕ) : Option ℕ :=
  ((enumFromQ 0 task.get_utilizations).foldl
    (fscStep allocated_cores (listMin task.get_utilizations)) none).map (fun b => b.1)

/-- What §4.3 step 2a of the spec prescribes for the second core: among the
cores not yet allocated to any cluster, those with utilization strictly
greater than the task's minimum utilization, the one with the smallest such
utilization, ties broken by ascending core index. -/
def specSecondCore (task : Task) (allocated_cores : List ℕ) : Option ℕ :=
  (firstMinBy (fun p => p.2)
    (((enumFromQ 0 task.get_utilizations).filter
        (fun p => decide (p.1 ∉ allocated_cores))).filter
      (fun p => decide (listMin task.get_utilizations < p.2)))).map (fun b => b.1)

/-- `Scheduler.find_cluster_with_core`, returning the decomposition of the
cluster list around the first cluster containing the core; `none` models
the `raise Exception("Not found")` branch. -/
def splitAtCore : List Cluster → ℕ → Option (List Cluster × Cluster × List Cluster)
  | [], _ => none
  | cl :: rest, core =>
      if cl.containsCore core then some ([], cl, rest)
      else (splitAtCore rest core).map (fun r => (cl :: r.1, r.2.1, r.2.2))

/-- The mutable state of one `construct_clusters` call. -/
structure CCState where
  tasks_allocated : List ℕ
  cores_allocated : List ℕ
  clusters : List Cluster
  considered : List (ℕ × ℕ)

/-- `tasks_cores_considered[task].add(core)` (a `set`, so adding an
existing pair is a no-op). -/
def addPair (p : ℕ × ℕ) (l : List (ℕ × ℕ)) : List (ℕ × ℕ) :=
  if p ∈ l then l else l ++ [p]

def initState : CCState := ⟨[], [], [], []⟩

/-- The failure modes of `construct_clusters`: `exit("Infeasible task
set")`, `raise Exception("Not found")` and the `assert min_core is not
None` of `find_second_core`. -/
inductive CCErr
  | infeasible
  | notFound
  | assertFail
deriving DecidableEq

/-- The `first_core in cores_allocated` branch of the loop body (lines
255-271 of `ceat.py`): look the cluster up, mark its two cores considered
for the task, accept the task when its demand fits in the spare capacity
plus the hard-coded slack of 100 (the line the code itself marks as buggy). -/
def ccStepElse (tasks : List Task) (frame_length : ℚ) (st : CCState)
    (t first_core : ℕ) : Except CCErr CCState :=
  match splitAtCore st.clusters first_core with
  | none => .error .notFound
  | some (l1, cl, l2) =>
      let considered2 := addPair (t, cl.second_core)
        (addPair (t, cl.first_core) (addPair (t, first_core) st.considered))
      let demand := average_computation_demand (nthTask tasks t) cl.first_core
        cl.second_core frame_length
      if demand ≤ cl.spare_capacity + 100 then
        .ok { st with
              clusters := l1 ++ { cl with
                  spare_capacity := cl.spare_capacity - demand,
                  tasks_allocated := cl.tasks_allocated ++ [t] } :: l2,
              tasks_allocated := st.tasks_allocated ++ [t],
              considered := considered2 }
      else
        .ok { st with considered := considered2 }

/-- The `first_core not in cores_allocated` branch (lines 234-253 of
`ceat.py`): append the core, find a second core (assertion failure when
none exists), and create the cluster when the average demand is strictly
below the frame length; otherwise only `cores_allocated` and the
considered set are left modified. -/
def ccStepFresh (tasks : List Task) (frame_length : ℚ) (st : CCState)
    (t first_core : ℕ) : Except CCErr CCState :=
  match find_second_core (nthTask tasks t) (st.cores_allocated ++ [first_core]) with
  | none => .error .assertFail
  | some second_core =>
      let demand := average_computation_demand (nthTask tasks t) first_core
        second_core frame_length
      let considered2 := addPair (t, second_core) (addPair (t, first_core) st.considered)
      if demand < frame_length then
        .ok { tasks_allocated := st.tasks_allocated ++ [t],
              cores_allocated := (st.cores_allocated ++ [first_core]) ++ [second_core],
              clusters := st.clusters
                ++ [mkCluster first_core second_core frame_length demand t],
              considered := considered2 }
      else
        .ok { st with
              cores_allocated := st.cores_allocated ++ [first_core],
              considered := considered2 }

/-- One iteration of the `while len(tasks_allocated) < len(tasks)` loop of
`construct_clusters` (lines 224-271 of `ceat.py`). -/
def ccStep (tasks : List Task) (frame_length : ℚ) (st : CCState) :
    Except CCErr CCState :=
  match task_with_lowest_share tasks st.tasks_allocated st.considered with
  | none => .error .infeasible
  | some (t, first_core) =>
      if first_core ∈ st.cores_allocated then ccStepElse tasks frame_length st t first_core
      else ccStepFresh tasks frame_length st t first_core

/-- The `construct_clusters` loop, with explicit fuel (the loop has no
structural termination measure; `c10_terminates` below proves the fuel
used by `construct_clusters` is never exhausted). -/
def constructClustersAux (tasks : List Task) (frame_length : ℚ) :
    ℕ → CCState → Option (Except CCErr (List Cluster))
  | 0, _ => none
  | fuel + 1, st =>
    if st.tasks_allocated.length < tasks.length then
      match ccStep tasks frame_length st with
      | .error e => some (.error e)
      | .ok st' => constructClustersAux tasks frame_length fuel st'
    else
      some (.ok st.clusters)

/-- An upper bound for the core indices a task set can mention. -/
def max_core_count (tasks : List Task) : ℕ :=
  (tasks.map Task.core_count).foldr max 0

/-- `Scheduler.construct_clusters`.  `some (.ok cls)` is a normal return,
`some (.error e)` one of the three abnormal exits, `none` fuel exhaustion
(proved unreachable). -/
def construct_clusters (tasks : List Task) (frame_length : ℚ) :
    Option (Except CCErr (List Cluster)) :=
  constructClustersAux tasks frame_length
    (tasks.length * max_core_count tasks + 1) initState

/-- Number of occurrences of task index `i` across all cluster task sets. -/
def clusterCount (cls : List Cluster) (i : ℕ) : ℕ :=
  (cls.map (fun cl => cl.tasks_allocated.count i)).sum

/-- Cumulative average computation demand of a cluster's allocated tasks. -/
def clusterTotalDemand (tasks : List Task) (frame_length : ℚ) (cl : Cluster) : ℚ :=
  (cl.tasks_allocated.map (fun i =>
    average_computation_demand (nthTask tasks i) cl.first_core cl.second_core
      frame_length)).sum

/-! The frame driver `Scheduler.ceat`. -/

def TOTAL_TIME : ℚ := 10000

/-- Frame-driver state: elapsed time and the per-task `remaining_period`
values (same order as the task list). -/
structure DState where
  time : ℚ
  remaining : List ℚ

/-- `frame_length = min([task.remaining_period for task in tasks])` —
computed from the state as it is at the start of the loop body, before the
zero-reset loop runs. -/
def frame_of (st : DState) : ℚ := listMin st.remaining

/-- The reset loop: `if task.remaining_period == 0: task.remaining_period = task.period`. -/
def resetRemaining (tasks : List Task) (rem : List ℚ) : List ℚ :=
  (rem.zip tasks).map (fun p => if p.1 = 0 then p.2.period else p.1)

/-- One iteration of the `while time < TOTAL_TIME` loop of `ceat` (lines
190-210): compute the frame length, reset zero remaining periods, build
the clusters, decrement every remaining period and advance time.  `none`
models an abnormal exit inside `construct_clusters` (the printing of the
clusters has no algorithmic content and is dropped). -/
def ceat_step (tasks : List Task) (st : DState) : Option DState :=
  let frame_length := frame_of st
  let rem1 := resetRemaining tasks st.remaining
  match construct_clusters tasks frame_length with
  | some (.ok _) => some ⟨st.time + frame_length, rem1.map (fun r => r - frame_length)⟩
  | _ => none

/-- Initial driver state: `remaining_period` starts at `period`, time at 0. -/
def initDState (tasks : List Task) : DState :=
  ⟨0, tasks.map Task.period⟩

end Ceat

namespace Ceat

/-- Scenario A of §8: utilization vectors [0.2, 0.5], [0.3, 0.1], [0.4, 0.4],
all periods 10 (frame length 10). -/
def scenA : List Task :=
  [⟨0, 2, 10, [1, 2/5]⟩, ⟨1, 3, 10, [1, 3]⟩, ⟨2, 4, 10, [1, 1]⟩]

/-- Concrete run of `construct_clusters` on Scenario A (frame length 10):
a single cluster over cores 0 and 1 holding all three tasks. -/
theorem scenA_eval : construct_clusters scenA 10 = some (.ok [⟨0, 1, 21/2, [1, 0, 2]⟩]) := by
  norm_num [construct_clusters, constructClustersAux, max_core_count, Task.core_count,
    ccStep, ccStepElse, ccStepFresh, task_with_lowest_share, argminF, candidatePairs, candAux, candCores,
    enumFromQ, Task.get_utilizations, pairUtil, Task.get_utilization, nthQ, nthTask, scenA,
    initState, addPair, find_second_core, fscStep, listMin, average_computation_demand,
    Task.get_share, mkCluster, splitAtCore, Cluster.containsCore,
    Prod.mk.injEq, List.mem_cons, List.mem_singleton, List.not_mem_nil,
    -Prod.mk_zero_zero, -Prod.mk_one_one]

end Ceat

namespace Ceat

/-! Generic facts about the first-minimum scan `argminF`. -/

theorem foldl_argmin_some {α : Type} (key : α → ℚ) :
    ∀ (l : List α) (b : α),
      List.foldl
        (fun acc x =>
          match acc with
          | none => some x
          | some b => if key x < key b then some x else some b)
        (some b) l
      = some (argmin1 key b l)
  | [], _ => rfl
  | x :: l, b => by
      rw [List.foldl_cons]
      show List.foldl _ (if key x < key b then some x else some b) l
        = some (argmin1 key (if key x < key b then x else b) l)
      rw [← apply_ite some]
      exact foldl_argmin_some key l _

theorem argminF_cons {α : Type} (key : α → ℚ) (x : α) (l : List α) :
    argminF key (x :: l) = some (argmin1 key x l) := by
  rw [argminF, List.foldl_cons]
  exact foldl_argmin_some key l x

theorem argminF_none_iff {α : Type} (key : α → ℚ) (l : List α) :
    argminF key l = none ↔ l = [] := by
  cases l with
  | nil => simp [argminF]
  | cons x l => simp [argminF_cons]

theorem argmin1_key_min {α : Type} (key : α → ℚ) :
    ∀ (l : List α) (b : α),
      key (argmin1 key b l) ≤ key b ∧ ∀ y ∈ l, key (argmin1 key b l) ≤ key y
  | [], b => ⟨le_refl _, by simp⟩
  | x :: l, b => by
      show key (argmin1 key (if key x < key b then x else b) l) ≤ key b
        ∧ ∀ y ∈ x :: l, key (argmin1 key (if key x < key b then x else b) l) ≤ key y
      obtain ⟨h1, h2⟩ := argmin1_key_min key l (if key x < key b then x else b)
      have hb : key (if key x < key b then x else b) ≤ key b := by
        split
        · exact le_of_lt (by assumption)
        · exact le_refl _
      have hx : key (if key x < key b then x else b) ≤ key x := by
        split
        · exact le_refl _
        · exact le_of_not_lt (by assumption)
      refine ⟨h1.trans hb, ?_⟩
      intro y hy
      rcases List.mem_cons.mp hy with rfl | hy'
      · exact h1.trans hx
      · exact h2 y hy'

theorem argmin1_first_split {α : Type} (key : α → ℚ) :
    ∀ (l : List α) (b : α),
      ∃ l1 l2, b :: l = l1 ++ argmin1 key b l :: l2
        ∧ ∀ y ∈ l1, key (argmin1 key b l) < key y
  | [], b => ⟨[], [], rfl, by simp⟩
  | x :: l, b => by
      show ∃ l1 l2, b :: x :: l = l1 ++ argmin1 key (if key x < key b then x else b) l :: l2
        ∧ ∀ y ∈ l1, key (argmin1 key (if key x < key b then x else b) l) < key y
      obtain ⟨l1, l2, hsplit, hgt⟩ := argmin1_first_split key l (if key x < key b then x else b)
      by_cases hlt : key x < key b
      · rw [if_pos hlt] at hsplit hgt ⊢
        refine ⟨b :: l1, l2, by rw [List.cons_append, ← hsplit], ?_⟩
        intro y hy
        rcases List.mem_cons.mp hy with rfl | hy'
        · exact lt_of_le_of_lt ((argmin1_key_min key l x).1) hlt
        · exact hgt y hy'
      · rw [if_neg hlt] at hsplit hgt ⊢
        cases l1 with
        | nil =>
            rw [List.nil_append] at hsplit
            injection hsplit with hb hl
            refine ⟨[], x :: l, ?_, by simp⟩
            rw [List.nil_append, ← hb]
        | cons c l1 =>
            rw [List.cons_append] at hsplit
            injection hsplit with hb hl
            subst hb
            have hrb : key (argmin1 key b l) < key b := hgt b (List.mem_cons_self b l1)
            refine ⟨b :: x :: l1, l2, ?_, ?_⟩
            · rw [List.cons_append, List.cons_append, ← hl]
            · intro y hy
              rcases List.mem_cons.mp hy with rfl | hy'
              · exact hrb
              rcases List.mem_cons.mp hy' with rfl | hy''
              · exact lt_of_lt_of_le hrb (le_of_not_lt hlt)
              · exact hgt y (List.mem_cons.mpr (Or.inr hy''))

theorem argmin1_mem {α : Type} (key : α → ℚ) (l : List α) (b : α) :
    argmin1 key b l ∈ b :: l := by
  obtain ⟨l1, l2, hsplit, -⟩ := argmin1_first_split key l b
  rw [hsplit]
  exact List.mem_append.mpr (Or.inr (List.mem_cons_self _ _))

theorem argminF_mem {α : Type} (key : α → ℚ) (l : List α) (x : α)
    (h : argminF key l = some x) : x ∈ l := by
  cases l with
  | nil => simp [argminF] at h
  | cons y l =>
      rw [argminF_cons] at h
      obtain rfl := Option.some.injEq .. ▸ h
      exact argmin1_mem key l y

theorem key_argmin1 {α : Type} (key : α → ℚ) :
    ∀ (l : List α) (b : α), key (argmin1 key b l) = (l.map key).foldl min (key b)
  | [], _ => rfl
  | x :: l, b => by
      rw [List.map_cons, List.foldl_cons]
      show key (argmin1 key (if key x < key b then x else b) l) = _
      rw [key_argmin1 key l (if key x < key b then x else b)]
      congr 1
      rcases le_or_lt (key b) (key x) with hle | hlt
      · rw [if_neg (not_lt_of_ge hle), min_eq_left hle]
      · rw [if_pos hlt, min_eq_right (le_of_lt hlt)]

theorem find?_first_attain {α : Type} (p : α → Bool) :
    ∀ (l1 : List α) (r : α) (l2 : List α), (∀ y ∈ l1, p y = false) → p r = true →
      List.find? p (l1 ++ r :: l2) = some r
  | [], r, l2, _, hr => by rw [List.nil_append, List.find?_cons_of_pos _ hr]
  | y :: l1, r, l2, h, hr => by
      rw [List.cons_append,
        List.find?_cons_of_neg _ (by simp [h y (List.mem_cons_self y l1)])]
      exact find?_first_attain p l1 r l2 (fun z hz => h z (List.mem_cons.mpr (Or.inr hz))) hr

/-- The first-minimum scan returns exactly the first element of the list
attaining the globally minimal key. -/
theorem argminF_eq_firstMinBy {α : Type} (key : α → ℚ) :
    ∀ l : List α, argminF key l = firstMinBy key l
  | [] => rfl
  | x :: l => by
      rw [argminF_cons]
      have hmin : ((x :: l).map key).min? = some (key (argmin1 key x l)) := by
        rw [List.map_cons]
        show some ((l.map key).foldl min (key x)) = _
        rw [key_argmin1 key l x]
      simp only [firstMinBy, hmin]
      obtain ⟨l1, l2, hsplit, hgt⟩ := argmin1_first_split key l x
      rw [hsplit]
      exact (find?_first_attain _ l1 _ l2
        (fun y hy => by
          simp only [decide_eq_false_iff_not]
          exact ne_of_gt (hgt y hy))
        (by simp)).symm

end Ceat

namespace Ceat

/-! Membership and bound lemmas about the candidate machinery. -/

theorem get_utilizations_length (t : Task) :
    t.get_utilizations.length = t.core_count := by
  simp [Task.get_utilizations, Task.core_count]

theorem mem_enumFromQ : ∀ (l : List ℚ) (i : ℕ) (p : ℕ × ℚ),
    p ∈ enumFromQ i l → i ≤ p.1 ∧ p.1 < i + l.length
  | [], i, p => by simp [enumFromQ]
  | x :: l, i, p => by
      intro h
      rcases List.mem_cons.mp h with rfl | h'
      · simp
      · have := mem_enumFromQ l (i + 1) p h'
        simp only [List.length_cons]
        omega

theorem mem_candCores : ∀ (ps : List (ℕ × ℚ)) (i : ℕ) (cons : List (ℕ × ℕ)) (q : ℕ × ℕ),
    q ∈ candCores i cons ps → q.1 = i ∧ q ∉ cons ∧ ∃ p ∈ ps, p.1 = q.2
  | [], i, cons, q => by simp [candCores]
  | p :: ps, i, cons, q => by
      intro h
      rw [candCores] at h
      rcases List.mem_append.mp h with h1 | h2
      · by_cases hc : (i, p.1) ∈ cons
        · rw [if_pos hc] at h1
          simp at h1
        · rw [if_neg hc] at h1
          obtain rfl := List.mem_singleton.mp h1
          exact ⟨rfl, hc, p, List.mem_cons_self p ps, rfl⟩
      · obtain ⟨h1, h2', p', hp', hv⟩ := mem_candCores ps i cons q h2
        exact ⟨h1, h2', p', List.mem_cons.mpr (Or.inr hp'), hv⟩

theorem mem_candAux : ∀ (ts : List Task) (i : ℕ) (alloc : List ℕ)
    (cons : List (ℕ × ℕ)) (q : ℕ × ℕ), q ∈ candAux alloc cons i ts →
    i ≤ q.1 ∧ q.1 < i + ts.length ∧ q.1 ∉ alloc ∧ q ∉ cons
      ∧ q.2 < (nthTask ts (q.1 - i)).core_count
  | [], i, alloc, cons, q => by simp [candAux]
  | t :: ts, i, alloc, cons, q => by
      intro h
      rw [candAux] at h
      rcases List.mem_append.mp h with h1 | h2
      · by_cases ha : i ∈ alloc
        · rw [if_pos ha] at h1
          simp at h1
        · rw [if_neg ha] at h1
          obtain ⟨hq1, hqc, p, hp, hv⟩ := mem_candCores _ _ _ _ h1
          obtain ⟨-, hplt⟩ := mem_enumFromQ _ _ _ hp
          subst hq1
          have hsub : q.1 - q.1 = 0 := by omega
          rw [hsub]
          refine ⟨le_refl _, by simp only [List.length_cons]; omega, ha, hqc, ?_⟩
          show q.2 < t.core_count
          rw [← hv, ← get_utilizations_length t]
          omega
      · obtain ⟨hge, hlt, hna, hnc, hcc⟩ := mem_candAux ts (i + 1) alloc cons q h2
        have hsub : q.1 - i = (q.1 - (i + 1)) + 1 := by omega
        rw [hsub]
        refine ⟨by omega, by simp only [List.length_cons]; omega, hna, hnc, ?_⟩
        exact hcc

theorem mem_candidatePairs (tasks : List Task) (alloc : List ℕ)
    (cons : List (ℕ × ℕ)) (q : ℕ × ℕ) (h : q ∈ candidatePairs tasks alloc cons) :
    q.1 < tasks.length ∧ q.1 ∉ alloc ∧ q ∉ cons
      ∧ q.2 < (nthTask tasks q.1).core_count := by
  obtain ⟨-, hlt, hna, hnc, hcc⟩ := mem_candAux tasks 0 alloc cons q h
  rw [Nat.sub_zero] at hcc
  exact ⟨by omega, hna, hnc, hcc⟩

theorem task_with_lowest_share_some (tasks : List Task) (alloc : List ℕ)
    (cons : List (ℕ × ℕ)) (t c : ℕ)
    (h : task_with_lowest_share tasks alloc cons = some (t, c)) :
    t < tasks.length ∧ t ∉ alloc ∧ (t, c) ∉ cons
      ∧ c < (nthTask tasks t).core_count :=
  mem_candidatePairs tasks alloc cons (t, c) (argminF_mem _ _ _ h)

theorem fscStep_cases (alloc : List ℕ) (lv : ℚ) (acc : Option (ℕ × ℚ)) (p : ℕ × ℚ) :
    fscStep alloc lv acc p = acc ∨ fscStep alloc lv acc p = some p := by
  rw [fscStep.eq_def]
  split
  · exact Or.inl rfl
  · cases acc with
    | none => exact Or.inr rfl
    | some b0 =>
        show (if lv < p.2 ∧ p.2 < b0.2 then some p else some b0) = some b0
          ∨ (if lv < p.2 ∧ p.2 < b0.2 then some p else some b0) = some p
        split
        · exact Or.inr rfl
        · exact Or.inl rfl

theorem fsc_fold_bound (alloc : List ℕ) (lv : ℚ) (N : ℕ) :
    ∀ (l : List (ℕ × ℚ)) (acc : Option (ℕ × ℚ)),
      (∀ b, acc = some b → b.1 < N) → (∀ p ∈ l, p.1 < N) →
      ∀ b, List.foldl (fscStep alloc lv) acc l = some b → b.1 < N
  | [], acc, hacc, _, b, h => hacc b h
  | p :: l, acc, hacc, hl, b, h => by
      rw [List.foldl_cons] at h
      refine fsc_fold_bound alloc lv N l _ ?_
        (fun q hq => hl q (List.mem_cons.mpr (Or.inr hq))) b h
      intro b' hb'
      rcases fscStep_cases alloc lv acc p with hc | hc
      · rw [hc] at hb'
        exact hacc b' hb'
      · rw [hc] at hb'
        exact Option.some.inj hb' ▸ hl p (List.mem_cons_self p l)

theorem find_second_core_some (task : Task) (alloc : List ℕ) (c : ℕ)
    (h : find_second_core task alloc = some c) : c < task.core_count := by
  rw [find_second_core] at h
  obtain ⟨b, hb, rfl⟩ := Option.map_eq_some'.mp h
  have := fsc_fold_bound alloc (listMin task.get_utilizations)
    task.core_count (enumFromQ 0 task.get_utilizations) none (by simp)
    (fun p hp => by
      obtain ⟨-, hlt⟩ := mem_enumFromQ _ _ _ hp
      rw [← get_utilizations_length task]
      omega)
    b hb
  exact this

theorem splitAtCore_eq : ∀ (cls : List Cluster) (core : ℕ)
    (l1 : List Cluster) (cl : Cluster) (l2 : List Cluster),
    splitAtCore cls core = some (l1, cl, l2) → cls = l1 ++ cl :: l2
  | [], core, l1, cl, l2 => by simp [splitAtCore]
  | c :: rest, core, l1, cl, l2 => by
      intro h
      rw [splitAtCore] at h
      split at h
      · simp only [Option.some.injEq, Prod.mk.injEq] at h
        obtain ⟨rfl, rfl, rfl⟩ := h
        simp
      · cases hres : splitAtCore rest core with
        | none => rw [hres] at h; simp at h
        | some r =>
            obtain ⟨a, b, c2⟩ := r
            rw [hres] at h
            simp only [Option.map_some', Option.some.injEq, Prod.mk.injEq] at h
            obtain ⟨rfl, rfl, rfl⟩ := h
            have := splitAtCore_eq rest core a b c2 hres
            rw [List.cons_append, ← this]

/-! `addPair` (insertion into the considered set). -/

theorem addPair_nodup (p : ℕ × ℕ) (l : List (ℕ × ℕ)) (h : l.Nodup) :
    (addPair p l).Nodup := by
  by_cases hp : p ∈ l
  · rw [addPair, if_pos hp]; exact h
  · rw [addPair, if_neg hp]
    simp [List.nodup_append, h, hp]

theorem mem_addPair (p q : ℕ × ℕ) (l : List (ℕ × ℕ)) (h : q ∈ addPair p l) :
    q = p ∨ q ∈ l := by
  rw [addPair] at h
  split at h
  · exact Or.inr h
  · rcases List.mem_append.mp h with h' | h'
    · exact Or.inr h'
    · exact Or.inl (List.mem_singleton.mp h')

theorem length_addPair_le (p : ℕ × ℕ) (l : List (ℕ × ℕ)) :
    l.length ≤ (addPair p l).length := by
  rw [addPair]; split <;> simp

theorem length_lt_addPair (p : ℕ × ℕ) (l : List (ℕ × ℕ)) (h : p ∉ l) :
    l.length < (addPair p l).length := by
  rw [addPair, if_neg h]; simp

theorem core_count_le_max : ∀ (tasks : List Task) (t : ℕ), t < tasks.length →
    (nthTask tasks t).core_count ≤ max_core_count tasks
  | [], t, h => by simp at h
  | tk :: tasks, 0, _ => by
      show tk.core_count ≤ max tk.core_count ((tasks.map Task.core_count).foldr max 0)
      exact le_max_left _ _
  | tk :: tasks, t + 1, h => by
      show (nthTask tasks t).core_count ≤ max tk.core_count ((tasks.map Task.core_count).foldr max 0)
      exact le_trans (core_count_le_max tasks t (by simpa using h)) (le_max_right _ _)

/-- Invariant backing the termination argument: considered pairs are
distinct and range-bounded, and every cluster core index is bounded. -/
def InvB (tasks : List Task) (st : CCState) : Prop :=
  st.considered.Nodup
  ∧ (∀ p ∈ st.considered, p.1 < tasks.length ∧ p.2 < max_core_count tasks)
  ∧ (∀ cl ∈ st.clusters,
      cl.first_core < max_core_count tasks ∧ cl.second_core < max_core_count tasks)

theorem considered_length_le (tasks : List Task) (st : CCState) (h : InvB tasks st) :
    st.considered.length ≤ tasks.length * max_core_count tasks := by
  obtain ⟨hnd, hmem, -⟩ := h
  have hsub : st.considered.toFinset ⊆
      Finset.range tasks.length ×ˢ Finset.range (max_core_count tasks) := by
    intro p hp
    rw [List.mem_toFinset] at hp
    obtain ⟨h1, h2⟩ := hmem p hp
    simp [Finset.mem_product, h1, h2]
  calc st.considered.length = st.considered.toFinset.card :=
        (List.toFinset_card_of_nodup hnd).symm
    _ ≤ _ := Finset.card_le_card hsub
    _ = tasks.length * max_core_count tasks := by simp [Finset.card_product]

end Ceat

namespace Ceat

/-! Unfolding equations for the loop pieces. -/

theorem constructClustersAux_succ (tasks : List Task) (F : ℚ) (fuel : ℕ) (st : CCState) :
    constructClustersAux tasks F (fuel + 1) st =
      if st.tasks_allocated.length < tasks.length then
        match ccStep tasks F st with
        | .error e => some (.error e)
        | .ok st' => constructClustersAux tasks F fuel st'
      else some (.ok st.clusters) := rfl

theorem ccStep_none (tasks : List Task) (F : ℚ) (st : CCState)
    (h : task_with_lowest_share tasks st.tasks_allocated st.considered = none) :
    ccStep tasks F st = .error .infeasible := by
  rw [ccStep.eq_def, h]

theorem ccStep_some (tasks : List Task) (F : ℚ) (st : CCState) (t c : ℕ)
    (h : task_with_lowest_share tasks st.tasks_allocated st.considered = some (t, c)) :
    ccStep tasks F st =
      if c ∈ st.cores_allocated then ccStepElse tasks F st t c
      else ccStepFresh tasks F st t c := by
  rw [ccStep.eq_def, h]

theorem ccStepElse_none (tasks : List Task) (F : ℚ) (st : CCState) (t c : ℕ)
    (h : splitAtCore st.clusters c = none) :
    ccStepElse tasks F st t c = .error .notFound := by
  rw [ccStepElse.eq_def, h]

theorem ccStepElse_some (tasks : List Task) (F : ℚ) (st : CCState) (t c : ℕ)
    (l1 : List Cluster) (cl : Cluster) (l2 : List Cluster)
    (h : splitAtCore st.clusters c = some (l1, cl, l2)) :
    ccStepElse tasks F st t c =
      (if average_computation_demand (nthTask tasks t) cl.first_core cl.second_core F
          ≤ cl.spare_capacity + 100 then
        .ok { st with
              clusters := l1 ++ { cl with
                  spare_capacity := cl.spare_capacity
                    - average_computation_demand (nthTask tasks t) cl.first_core
                        cl.second_core F,
                  tasks_allocated := cl.tasks_allocated ++ [t] } :: l2,
              tasks_allocated := st.tasks_allocated ++ [t],
              considered := addPair (t, cl.second_core)
                (addPair (t, cl.first_core) (addPair (t, c) st.considered)) }
      else
        .ok { st with
              considered := addPair (t, cl.second_core)
                (addPair (t, cl.first_core) (addPair (t, c) st.considered)) }) := by
  rw [ccStepElse.eq_def, h]

theorem ccStepFresh_none (tasks : List Task) (F : ℚ) (st : CCState) (t c : ℕ)
    (h : find_second_core (nthTask tasks t) (st.cores_allocated ++ [c]) = none) :
    ccStepFresh tasks F st t c = .error .assertFail := by
  rw [ccStepFresh.eq_def, h]

theorem ccStepFresh_some (tasks : List Task) (F : ℚ) (st : CCState) (t c sc : ℕ)
    (h : find_second_core (nthTask tasks t) (st.cores_allocated ++ [c]) = some sc) :
    ccStepFresh tasks F st t c =
      (if average_computation_demand (nthTask tasks t) c sc F < F then
        .ok { tasks_allocated := st.tasks_allocated ++ [t],
              cores_allocated := (st.cores_allocated ++ [c]) ++ [sc],
              clusters := st.clusters
                ++ [mkCluster c sc F (average_computation_demand (nthTask tasks t) c sc F) t],
              considered := addPair (t, sc) (addPair (t, c) st.considered) }
      else
        .ok { st with
              cores_allocated := st.cores_allocated ++ [c],
              considered := addPair (t, sc) (addPair (t, c) st.considered) }) := by
  rw [ccStepFresh.eq_def, h]

/-! Counting and cluster helper lemmas. -/

theorem clusterCount_append (a b : List Cluster) (i : ℕ) :
    clusterCount (a ++ b) i = clusterCount a i + clusterCount b i := by
  simp [clusterCount]

theorem clusterCount_cons (cl : Cluster) (cls : List Cluster) (i : ℕ) :
    clusterCount (cl :: cls) i = cl.tasks_allocated.count i + clusterCount cls i := by
  simp [clusterCount]

theorem count_append_singleton (l : List ℕ) (t i : ℕ) :
    (l ++ [t]).count i = l.count i + (if i = t then 1 else 0) := by
  rw [List.count_append]
  by_cases h : i = t <;> simp [List.count_cons, h]

theorem nodup_append_singleton (l : List ℕ) (t : ℕ) (h : l.Nodup) (ht : t ∉ l) :
    (l ++ [t]).Nodup := by
  simp [List.nodup_append, h, ht]

theorem mkCluster_core_cases (c1 c2 : ℕ) (F d : ℚ) (t : ℕ) :
    ((mkCluster c1 c2 F d t).first_core = c1 ∧ (mkCluster c1 c2 F d t).second_core = c2)
    ∨ ((mkCluster c1 c2 F d t).first_core = c2 ∧ (mkCluster c1 c2 F d t).second_core = c1) := by
  rw [mkCluster]
  split
  · exact Or.inl ⟨rfl, rfl⟩
  · exact Or.inr ⟨rfl, rfl⟩

theorem mkCluster_tasks (c1 c2 : ℕ) (F d : ℚ) (t : ℕ) :
    (mkCluster c1 c2 F d t).tasks_allocated = [t] := by
  rw [mkCluster]
  split <;> rfl

/-- Invariant backing the partition theorem: allocated task indices are
distinct and in range, and every task index occurs in the clusters exactly
as often as in `tasks_allocated`. -/
def Inv4 (tasks : List Task) (st : CCState) : Prop :=
  st.tasks_allocated.Nodup
  ∧ (∀ i ∈ st.tasks_allocated, i < tasks.length)
  ∧ (∀ i : ℕ, clusterCount st.clusters i = st.tasks_allocated.count i)

theorem alloc_complete (n : ℕ) (l : List ℕ) (hnd : l.Nodup) (hb : ∀ i ∈ l, i < n)
    (hlen : n ≤ l.length) : ∀ i < n, l.count i = 1 := by
  have hsub : l.toFinset ⊆ Finset.range n := by
    intro x hx
    rw [List.mem_toFinset] at hx
    simpa using hb x hx
  have hcard : l.toFinset.card = l.length := List.toFinset_card_of_nodup hnd
  have heq : l.toFinset = Finset.range n := by
    apply Finset.eq_of_subset_of_card_le hsub
    rw [hcard]
    simpa using hlen
  intro i hi
  have hmem : i ∈ l := by
    rw [← List.mem_toFinset, heq]
    simpa using hi
  exact List.count_eq_one_of_mem hnd hmem

end Ceat

namespace Ceat

/-- Every successful loop iteration strictly grows the considered set and
preserves both invariants. -/
theorem ccStep_ok (tasks : List Task) (F : ℚ) (st st' : CCState)
    (h : ccStep tasks F st = .ok st') :
    st.considered.length < st'.considered.length
    ∧ (InvB tasks st → InvB tasks st')
    ∧ (Inv4 tasks st → Inv4 tasks st') := by
  cases hsel : task_with_lowest_share tasks st.tasks_allocated st.considered with
  | none =>
      rw [ccStep_none tasks F st hsel] at h
      simp at h
  | some tc =>
      obtain ⟨t, first_core⟩ := tc
      obtain ⟨htn, hta, htc, htcc⟩ := task_with_lowest_share_some _ _ _ _ _ hsel
      have hfc_max : first_core < max_core_count tasks :=
        lt_of_lt_of_le htcc (core_count_le_max tasks t htn)
      rw [ccStep_some tasks F st t first_core hsel] at h
      by_cases hfc : first_core ∈ st.cores_allocated
      · rw [if_pos hfc] at h
        cases hsp : splitAtCore st.clusters first_core with
        | none =>
            rw [ccStepElse_none tasks F st t first_core hsp] at h
            simp at h
        | some r =>
            obtain ⟨l1, cl, l2⟩ := r
            have hcls : st.clusters = l1 ++ cl :: l2 := splitAtCore_eq _ _ _ _ _ hsp
            have hclmem : cl ∈ st.clusters := by
              rw [hcls]
              exact List.mem_append.mpr (Or.inr (List.mem_cons_self _ _))
            rw [ccStepElse_some tasks F st t first_core l1 cl l2 hsp] at h
            have hgrow : st.considered.length <
                (addPair (t, cl.second_core)
                  (addPair (t, cl.first_core) (addPair (t, first_core) st.considered))).length :=
              lt_of_lt_of_le (length_lt_addPair _ _ htc)
                (le_trans (length_addPair_le _ _) (length_addPair_le _ _))
            have hmemB : InvB tasks st →
                ∀ p ∈ addPair (t, cl.second_core)
                  (addPair (t, cl.first_core) (addPair (t, first_core) st.considered)),
                  p.1 < tasks.length ∧ p.2 < max_core_count tasks := by
              rintro ⟨-, hmem, hclb⟩ p hp
              rcases mem_addPair _ _ _ hp with rfl | hp1
              · exact ⟨htn, (hclb cl hclmem).2⟩
              rcases mem_addPair _ _ _ hp1 with rfl | hp2
              · exact ⟨htn, (hclb cl hclmem).1⟩
              rcases mem_addPair _ _ _ hp2 with rfl | hp3
              · exact ⟨htn, hfc_max⟩
              · exact hmem p hp3
            split at h
            · -- task accepted into the existing cluster
              injection h with h
              subst h
              refine ⟨hgrow, ?_, ?_⟩
              · rintro hB
                obtain ⟨hnd, hmem, hclb⟩ := hB
                refine ⟨addPair_nodup _ _ (addPair_nodup _ _ (addPair_nodup _ _ hnd)),
                  hmemB ⟨hnd, hmem, hclb⟩, ?_⟩
                intro c hc
                rcases List.mem_append.mp hc with hc1 | hc2
                · exact hclb c (by rw [hcls]; exact List.mem_append.mpr (Or.inl hc1))
                rcases List.mem_cons.mp hc2 with rfl | hc3
                · exact hclb cl hclmem
                · exact hclb c
                    (by rw [hcls]
                        exact List.mem_append.mpr (Or.inr (List.mem_cons.mpr (Or.inr hc3))))
              · rintro ⟨hnd4, hb4, hcount⟩
                refine ⟨nodup_append_singleton _ _ hnd4 hta, ?_, ?_⟩
                · intro i hi
                  rcases List.mem_append.mp hi with hi1 | hi2
                  · exact hb4 i hi1
                  · obtain rfl := List.mem_singleton.mp hi2
                    exact htn
                · intro i
                  have h0 := hcount i
                  rw [hcls, clusterCount_append, clusterCount_cons] at h0
                  show clusterCount (l1 ++ _ :: l2) i = (st.tasks_allocated ++ [t]).count i
                  rw [clusterCount_append, clusterCount_cons]
                  show clusterCount l1 i
                      + ((cl.tasks_allocated ++ [t]).count i + clusterCount l2 i)
                    = (st.tasks_allocated ++ [t]).count i
                  rw [count_append_singleton, count_append_singleton]
                  omega
            · -- task rejected: only the considered set changed
              injection h with h
              subst h
              refine ⟨hgrow, ?_, ?_⟩
              · rintro hB
                obtain ⟨hnd, hmem, hclb⟩ := hB
                exact ⟨addPair_nodup _ _ (addPair_nodup _ _ (addPair_nodup _ _ hnd)),
                  hmemB ⟨hnd, hmem, hclb⟩, hclb⟩
              · exact fun h4 => h4
      · rw [if_neg hfc] at h
        cases hsc : find_second_core (nthTask tasks t) (st.cores_allocated ++ [first_core]) with
        | none =>
            rw [ccStepFresh_none tasks F st t first_core hsc] at h
            simp at h
        | some second_core =>
            have hsc_max : second_core < max_core_count tasks :=
              lt_of_lt_of_le (find_second_core_some _ _ _ hsc)
                (core_count_le_max tasks t htn)
            rw [ccStepFresh_some tasks F st t first_core second_core hsc] at h
            have hgrow : st.considered.length <
                (addPair (t, second_core) (addPair (t, first_core) st.considered)).length :=
              lt_of_lt_of_le (length_lt_addPair _ _ htc) (length_addPair_le _ _)
            have hmemB : InvB tasks st →
                ∀ p ∈ addPair (t, second_core) (addPair (t, first_core) st.considered),
                  p.1 < tasks.length ∧ p.2 < max_core_count tasks := by
              rintro ⟨-, hmem, -⟩ p hp
              rcases mem_addPair _ _ _ hp with rfl | hp1
              · exact ⟨htn, hsc_max⟩
              rcases mem_addPair _ _ _ hp1 with rfl | hp2
              · exact ⟨htn, hfc_max⟩
              · exact hmem p hp2
            split at h
            · -- new cluster created
              injection h with h
              subst h
              refine ⟨hgrow, ?_, ?_⟩
              · rintro hB
                obtain ⟨hnd, hmem, hclb⟩ := hB
                refine ⟨addPair_nodup _ _ (addPair_nodup _ _ hnd),
                  hmemB ⟨hnd, hmem, hclb⟩, ?_⟩
                intro c hc
                rcases List.mem_append.mp hc with hc1 | hc2
                · exact hclb c hc1
                · obtain rfl := List.mem_singleton.mp hc2
                  rcases mkCluster_core_cases first_core second_core F
                      (average_computation_demand (nthTask tasks t) first_core second_core F) t
                    with ⟨h1, h2⟩ | ⟨h1, h2⟩
                  · rw [h1, h2]
                    exact ⟨hfc_max, hsc_max⟩
                  · rw [h1, h2]
                    exact ⟨hsc_max, hfc_max⟩
              · rintro ⟨hnd4, hb4, hcount⟩
                refine ⟨nodup_append_singleton _ _ hnd4 hta, ?_, ?_⟩
                · intro i hi
                  rcases List.mem_append.mp hi with hi1 | hi2
                  · exact hb4 i hi1
                  · obtain rfl := List.mem_singleton.mp hi2
                    exact htn
                · intro i
                  have h0 := hcount i
                  show clusterCount (st.clusters ++ [_]) i = (st.tasks_allocated ++ [t]).count i
                  rw [clusterCount_append, clusterCount_cons, mkCluster_tasks,
                    count_append_singleton]
                  show clusterCount st.clusters i + (([t].count i) + clusterCount [] i)
                    = st.tasks_allocated.count i + (if i = t then 1 else 0)
                  have h1 : [t].count i = (if i = t then 1 else 0) := by
                    by_cases hit : i = t <;> simp [List.count_cons, hit]
                  rw [h1]
                  show clusterCount st.clusters i + ((if i = t then 1 else 0) + 0)
                    = st.tasks_allocated.count i + (if i = t then 1 else 0)
                  omega
            · -- cluster creation rejected: core stays allocated, no cluster
              injection h with h
              subst h
              refine ⟨hgrow, ?_, ?_⟩
              · rintro hB
                obtain ⟨hnd, hmem, hclb⟩ := hB
                exact ⟨addPair_nodup _ _ (addPair_nodup _ _ hnd),
                  hmemB ⟨hnd, hmem, hclb⟩, hclb⟩
              · exact fun h4 => h4

end Ceat

namespace Ceat

theorem aux_isSome (tasks : List Task) (F : ℚ) :
    ∀ (fuel : ℕ) (st : CCState), InvB tasks st →
      tasks.length * max_core_count tasks + 1 ≤ fuel + st.considered.length →
      (constructClustersAux tasks F fuel st).isSome
  | 0, st, hI, hle => by
      exact absurd (considered_length_le tasks st hI) (by omega)
  | fuel + 1, st, hI, hle => by
      rw [constructClustersAux_succ]
      split
      · cases hstep : ccStep tasks F st with
        | error e => simp
        | ok st' =>
            obtain ⟨hlt, hIB, -⟩ := ccStep_ok tasks F st st' hstep
            exact aux_isSome tasks F fuel st' (hIB hI) (by omega)
      · simp

theorem aux_partition (tasks : List Task) (F : ℚ) :
    ∀ (fuel : ℕ) (st : CCState) (cls : List Cluster), Inv4 tasks st →
      constructClustersAux tasks F fuel st = some (.ok cls) →
      ∀ i < tasks.length, clusterCount cls i = 1
  | 0, st, cls, hI, h => by simp [constructClustersAux] at h
  | fuel + 1, st, cls, hI, h => by
      rw [constructClustersAux_succ] at h
      split at h
      · cases hstep : ccStep tasks F st with
        | error e => rw [hstep] at h; simp at h
        | ok st' =>
            rw [hstep] at h
            exact aux_partition tasks F fuel st' cls ((ccStep_ok tasks F st st' hstep).2.2 hI) h
      · simp only [Option.some.injEq, Except.ok.injEq] at h
        subst h
        obtain ⟨hnd, hb, hcount⟩ := hI
        intro i hi
        rw [hcount i]
        refine alloc_complete tasks.length st.tasks_allocated hnd hb ?_ i hi
        omega

/-- C10: `construct_clusters` terminates on every input — the fuel given to
the loop (one more than the number of possible (task, core) pairs) is never
exhausted, because every iteration inserts a fresh pair into the considered
set. -/
theorem c10_terminates (tasks : List Task) (F : ℚ) :
    (construct_clusters tasks F).isSome := by
  rw [construct_clusters]
  refine aux_isSome tasks F _ initState ⟨?_, ?_, ?_⟩ ?_
  · exact List.nodup_nil
  · intro p hp
    simp [initState] at hp
  · intro cl hcl
    simp [initState] at hcl
  · simp [initState]

/-- C4: whenever `construct_clusters` returns a cluster set normally, the
cluster task sets form a complete partition of the input task list — every
task index occurs in the clusters exactly once. -/
theorem c4_partition (tasks : List Task) (F : ℚ) (cls : List Cluster)
    (h : construct_clusters tasks F = some (.ok cls)) :
    ∀ i < tasks.length, clusterCount cls i = 1 := by
  rw [construct_clusters] at h
  refine aux_partition tasks F _ initState cls ⟨?_, ?_, ?_⟩ h
  · exact List.nodup_nil
  · intro i hi
    simp [initState] at hi
  · intro i
    simp [initState, clusterCount]

end Ceat

namespace Ceat

/-- C5: the candidate selection of `task_with_lowest_share` picks, among
all (unallocated task, unconsidered core) pairs in scan order, the first
pair attaining the globally minimal utilization; and when no candidate
exists, the loop immediately signals the infeasibility exit, producing no
cluster set for the frame. -/
theorem c5_selection :
    (∀ (tasks : List Task) (alloc : List ℕ) (cons : List (ℕ × ℕ)),
        task_with_lowest_share tasks alloc cons
          = firstMinBy (pairUtil tasks) (candidatePairs tasks alloc cons))
    ∧ (∀ (tasks : List Task) (F : ℚ) (st : CCState) (fuel : ℕ),
        st.tasks_allocated.length < tasks.length →
        task_with_lowest_share tasks st.tasks_allocated st.considered = none →
        constructClustersAux tasks F (fuel + 1) st = some (.error .infeasible)) := by
  constructor
  · intro tasks alloc cons
    exact argminF_eq_firstMinBy (pairUtil tasks) (candidatePairs tasks alloc cons)
  · intro tasks F st fuel hlen hnone
    rw [constructClustersAux_succ, if_pos hlen, ccStep_none tasks F st hnone]

/-- Task record with an empty rate vector: it offers no (task, core)
candidate at all, so the selection returns `None` at once. -/
def noCoreTask : Task := ⟨0, 1, 1, []⟩

theorem c5_selection_witness :
    task_with_lowest_share [noCoreTask] [] []
      = firstMinBy (pairUtil [noCoreTask]) (candidatePairs [noCoreTask] [] [])
    ∧ constructClustersAux [noCoreTask] 1 1 initState = some (.error .infeasible) :=
  ⟨c5_selection.1 [noCoreTask] [] [],
   c5_selection.2 [noCoreTask] 1 initState 0 (by decide) rfl⟩

/-! The second-core scan, restated for the C6 analysis. -/

/-- The body of the `find_second_core` loop with the allocated-core test
factored out. -/
def fscStep2 (lowest_value : ℚ) (acc : Option (ℕ × ℚ)) (p : ℕ × ℚ) : Option (ℕ × ℚ) :=
  match acc with
  | none => some p
  | some b => if lowest_value < p.2 ∧ p.2 < b.2 then some p else some b

theorem fsc_fold_filter (alloc : List ℕ) (lv : ℚ) :
    ∀ (l : List (ℕ × ℚ)) (acc : Option (ℕ × ℚ)),
      List.foldl (fscStep alloc lv) acc l
        = List.foldl (fscStep2 lv) acc (l.filter (fun p => decide (p.1 ∉ alloc)))
  | [], _ => rfl
  | p :: l, acc => by
      by_cases hp : p.1 ∈ alloc
      · rw [List.filter_cons_of_neg (by simpa using hp), List.foldl_cons,
          show fscStep alloc lv acc p = acc from by rw [fscStep.eq_def, if_pos hp]]
        exact fsc_fold_filter alloc lv l acc
      · rw [List.filter_cons_of_pos (by simpa using hp), List.foldl_cons, List.foldl_cons,
          show fscStep alloc lv acc p = fscStep2 lv acc p from by
            rw [fscStep.eq_def, if_neg hp]; rfl]
        exact fsc_fold_filter alloc lv l _

def argmin2 (lv : ℚ) : (ℕ × ℚ) → List (ℕ × ℚ) → (ℕ × ℚ)
  | b, [] => b
  | b, p :: l => argmin2 lv (if lv < p.2 ∧ p.2 < b.2 then p else b) l

theorem fscStep2_fold_some (lv : ℚ) :
    ∀ (l : List (ℕ × ℚ)) (b : ℕ × ℚ),
      List.foldl (fscStep2 lv) (some b) l = some (argmin2 lv b l)
  | [], _ => rfl
  | p :: l, b => by
      rw [List.foldl_cons]
      show List.foldl (fscStep2 lv) (if lv < p.2 ∧ p.2 < b.2 then some p else some b) l
        = some (argmin2 lv (if lv < p.2 ∧ p.2 < b.2 then p else b) l)
      rw [← apply_ite some]
      exact fscStep2_fold_some lv l _

theorem argmin2_eq_argmin1 (lv : ℚ) :
    ∀ (l : List (ℕ × ℚ)) (b : ℕ × ℚ),
      argmin2 lv b l
        = argmin1 (fun p => p.2) b (l.filter (fun p => decide (lv < p.2)))
  | [], _ => rfl
  | p :: l, b => by
      by_cases hq : lv < p.2
      · rw [List.filter_cons_of_pos (by simpa using hq)]
        show argmin2 lv (if lv < p.2 ∧ p.2 < b.2 then p else b) l
          = argmin1 (fun p => p.2) (if p.2 < b.2 then p else b)
              (l.filter (fun p => decide (lv < p.2)))
        rw [show (if lv < p.2 ∧ p.2 < b.2 then p else b) = (if p.2 < b.2 then p else b) from by
          by_cases h2 : p.2 < b.2 <;> simp [h2, hq]]
        exact argmin2_eq_argmin1 lv l _
      · rw [List.filter_cons_of_neg (by simpa using hq)]
        show argmin2 lv (if lv < p.2 ∧ p.2 < b.2 then p else b) l
          = argmin1 (fun p => p.2) b (l.filter (fun p => decide (lv < p.2)))
        rw [show (if lv < p.2 ∧ p.2 < b.2 then p else b) = b from by simp [hq]]
        exact argmin2_eq_argmin1 lv l b

/-- C6 (amended): whenever the lowest-indexed non-allocated core has
utilization strictly greater than the task's minimum utilization,
`find_second_core` does return the spec's choice — among non-allocated
cores, the one with the smallest utilization strictly greater than that
minimum, ties broken by ascending core index.  (The unamended claim fails
when the first non-allocated core ties the minimum; see the
counterexample.) -/
theorem c6_amended_second_core (task : Task) (alloc : List ℕ)
    (f : ℕ × ℚ) (fs : List (ℕ × ℚ))
    (hfree : (enumFromQ 0 task.get_utilizations).filter
        (fun p => decide (p.1 ∉ alloc)) = f :: fs)
    (hq : listMin task.get_utilizations < f.2) :
    find_second_core task alloc = specSecondCore task alloc := by
  rw [find_second_core, specSecondCore,
    fsc_fold_filter alloc (listMin task.get_utilizations) _ none, hfree,
    List.foldl_cons]
  show (List.foldl (fscStep2 (listMin task.get_utilizations)) (some f) fs).map (fun b => b.1)
    = _
  rw [fscStep2_fold_some, argmin2_eq_argmin1,
    List.filter_cons_of_pos (by simpa using hq), ← argminF_eq_firstMinBy, argminF_cons]

end Ceat

namespace Ceat

/-- Task with utilization vector [1, 1, 2]: its minimum utilization is
attained twice, so after core 0 is taken as first core, the first free
core (core 1) still ties the minimum. -/
def tieTask : Task := ⟨0, 1, 1, [1, 1, 1/2]⟩

/-- Task with utilization vector [1, 3, 2]. -/
def wTask : Task := ⟨0, 1, 1, [1, 1/3, 1/2]⟩

/-- C6 counterexample: with utilizations [1, 1, 2] and core 0 allocated,
the code returns core 1, whose utilization equals the task's minimum
utilization — not a core with utilization strictly greater than it — while
the spec's rule picks core 2. -/
theorem c6_counterexample :
    find_second_core tieTask [0] = some 1
    ∧ tieTask.get_utilization 1 = listMin tieTask.get_utilizations
    ∧ listMin tieTask.get_utilizations < tieTask.get_utilization 2
    ∧ specSecondCore tieTask [0] = some 2 := by
  refine ⟨?_, ?_, ?_, ?_⟩ <;>
    norm_num [find_second_core, fscStep, specSecondCore, firstMinBy, enumFromQ,
      Task.get_utilizations, Task.get_utilization, nthQ, listMin, tieTask,
      List.filter_cons, List.filter_nil, List.mem_cons, List.mem_singleton,
      List.not_mem_nil, Prod.mk.injEq, -Prod.mk_zero_zero, -Prod.mk_one_one]

theorem c6_amended_second_core_witness :
    find_second_core wTask [0] = specSecondCore wTask [0] :=
  c6_amended_second_core wTask [0] (1, 3) [(2, 2)]
    (by norm_num [enumFromQ, Task.get_utilizations, wTask,
          List.filter_cons, List.filter_nil, List.mem_cons, List.mem_singleton,
          List.not_mem_nil, Prod.mk.injEq, -Prod.mk_zero_zero, -Prod.mk_one_one])
    (by norm_num [listMin, Task.get_utilizations, wTask])

end Ceat

namespace Ceat

/-- Tasks with utilization vectors [0.2, 0.5], [0.9, 0.95], [0.8, 0.8]
(frame length 10). -/
def c1Tasks : List Task :=
  [⟨0, 1, 1, [5, 2]⟩, ⟨1, 1, 1, [10/9, 20/19]⟩, ⟨2, 1, 1, [5/4, 5/4]⟩]

/-- C1: because the acceptance test on line 268 of `ceat.py` allows
`demand ≤ spare_capacity + 100` (the hard-coded slack its own comment
marks as buggy), `construct_clusters` accepts a cluster whose cumulative
average computation demand is 20.75 > 2 × frame_length = 20; with the
documented default tolerance of 0 this must not happen. -/
theorem c1_capacity_tolerance_bug :
    construct_clusters c1Tasks 10 = some (.ok [⟨0, 1, -3/4, [0, 2, 1]⟩])
    ∧ 2 * 10 < clusterTotalDemand c1Tasks 10 ⟨0, 1, -3/4, [0, 2, 1]⟩ := by
  constructor
  · norm_num [construct_clusters, constructClustersAux, max_core_count, Task.core_count,
      ccStep, ccStepElse, ccStepFresh, task_with_lowest_share, argminF, candidatePairs,
      candAux, candCores, enumFromQ, Task.get_utilizations, pairUtil, Task.get_utilization,
      nthQ, nthTask, c1Tasks, initState, addPair, find_second_core, fscStep, listMin,
      average_computation_demand, Task.get_share, mkCluster, splitAtCore,
      Cluster.containsCore, Prod.mk.injEq, List.mem_cons, List.mem_singleton,
      List.not_mem_nil, -Prod.mk_zero_zero, -Prod.mk_one_one]
  · norm_num [clusterTotalDemand, average_computation_demand, Task.get_share,
      nthTask, nthQ, c1Tasks, List.sum_cons, List.sum_nil]

/-- Tasks with utilization vectors [1, 1.1, 5, 5] and [1.05, 5, 5, 5]
(frame length 10). -/
def c2Tasks : List Task :=
  [⟨0, 1, 1, [1, 10/11, 1/5, 1/5]⟩, ⟨1, 1, 1, [20/21, 1/5, 1/5, 1/5]⟩]

/-- C2: rejecting task 0's cluster creation (average demand 10.5 ≥ 10)
leaves core 0 in `cores_allocated` without any cluster; when task 1 then
selects core 0, `find_cluster_with_core` reaches its `Not found`
exception — the NotFound condition is reachable. -/
theorem c2_notfound_reachable :
    construct_clusters c2Tasks 10 = some (.error .notFound) := by
  norm_num [construct_clusters, constructClustersAux, max_core_count, Task.core_count,
    ccStep, ccStepElse, ccStepFresh, task_with_lowest_share, argminF, candidatePairs,
    candAux, candCores, enumFromQ, Task.get_utilizations, pairUtil, Task.get_utilization,
    nthQ, nthTask, c2Tasks, initState, addPair, find_second_core, fscStep, listMin,
    average_computation_demand, Task.get_share, mkCluster, splitAtCore,
    Cluster.containsCore, Prod.mk.injEq, List.mem_cons, List.mem_singleton,
    List.not_mem_nil, -Prod.mk_zero_zero, -Prod.mk_one_one]

/-- Tasks over three cores with utilization vectors [0.1, 0.2, 9] and
[9, 9, 0.1] (frame length 10). -/
def c9Tasks : List Task :=
  [⟨0, 1, 1, [10, 5, 1/9]⟩, ⟨1, 1, 1, [1/9, 1/9, 10]⟩]

/-- C9: after the first cluster occupies cores 0 and 1, task 1 selects the
fresh core 2; every other core is already allocated, `find_second_core`
finds no candidate, and the run aborts with the assertion failure — not
with the InfeasibleTaskSet signal. -/
theorem c9_assert_failure :
    construct_clusters c9Tasks 10 = some (.error .assertFail)
    ∧ find_second_core (nthTask c9Tasks 1) [0, 1, 2] = none
    ∧ CCErr.assertFail ≠ CCErr.infeasible := by
  refine ⟨?_, ?_, by decide⟩ <;>
    norm_num [construct_clusters, constructClustersAux, max_core_count, Task.core_count,
      ccStep, ccStepElse, ccStepFresh, task_with_lowest_share, argminF, candidatePairs,
      candAux, candCores, enumFromQ, Task.get_utilizations, pairUtil, Task.get_utilization,
      nthQ, nthTask, c9Tasks, initState, addPair, find_second_core, fscStep, listMin,
      average_computation_demand, Task.get_share, mkCluster, splitAtCore,
      Cluster.containsCore, Prod.mk.injEq, List.mem_cons, List.mem_singleton,
      List.not_mem_nil, -Prod.mk_zero_zero, -Prod.mk_one_one]

/-- C3: on Scenario A (all periods 10) the first driver frame succeeds and
advances time to 10 < TOTAL_TIME, leaving every remaining_period at 0; the
second frame's frame_length — computed before the zero-reset loop runs —
is therefore 0, not > 0, and elapsed time would advance by 0. -/
theorem c3_frame_length_zero :
    ceat_step scenA (initDState scenA) = some ⟨10, [0, 0, 0]⟩
    ∧ (10 : ℚ) < TOTAL_TIME
    ∧ frame_of ⟨10, [0, 0, 0]⟩ = 0
    ∧ ceat_step scenA ⟨10, [0, 0, 0]⟩ = none := by
  refine ⟨?_, by norm_num [TOTAL_TIME], by norm_num [frame_of, listMin], ?_⟩ <;>
  norm_num [ceat_step, frame_of, resetRemaining, initDState, construct_clusters,
    constructClustersAux, max_core_count, Task.core_count,
    ccStep, ccStepElse, ccStepFresh, task_with_lowest_share, argminF, candidatePairs,
    candAux, candCores, enumFromQ, Task.get_utilizations, pairUtil, Task.get_utilization,
    nthQ, nthTask, scenA, initState, addPair, find_second_core, fscStep, listMin,
    average_computation_demand, Task.get_share, mkCluster, splitAtCore,
    Cluster.containsCore, Prod.mk.injEq, List.mem_cons, List.mem_singleton,
    List.not_mem_nil, -Prod.mk_zero_zero, -Prod.mk_one_one]

/-- Tasks with utilization vectors [0.2, 0.5] and [0.3, 0.1], periods 10. -/
def p7Tasks : List Task := [⟨0, 2, 10, [1, 2/5]⟩, ⟨1, 1, 10, [1/3, 1]⟩]

/-- C7: after the first frame both remaining_period counters are exactly 0;
the next frame's minimum reads those zeros (frame_of = 0, violating strict
positivity) because the reset to the period — shown by the last conjunct —
only runs after the frame_length computation inside the same iteration. -/
theorem c7_reset_after_min :
    ceat_step p7Tasks (initDState p7Tasks) = some ⟨10, [0, 0]⟩
    ∧ (0 : ℚ) ∈ (DState.mk 10 [0, 0]).remaining
    ∧ frame_of ⟨10, [0, 0]⟩ = 0
    ∧ resetRemaining p7Tasks [0, 0] = [10, 10] := by
  refine ⟨?_, by norm_num, by norm_num [frame_of, listMin], ?_⟩
  · norm_num [ceat_step, frame_of, resetRemaining, initDState, construct_clusters,
      constructClustersAux, max_core_count, Task.core_count,
      ccStep, ccStepElse, ccStepFresh, task_with_lowest_share, argminF, candidatePairs,
      candAux, candCores, enumFromQ, Task.get_utilizations, pairUtil, Task.get_utilization,
      nthQ, nthTask, p7Tasks, initState, addPair, find_second_core, fscStep, listMin,
      average_computation_demand, Task.get_share, mkCluster, splitAtCore,
      Cluster.containsCore, Prod.mk.injEq, List.mem_cons, List.mem_singleton,
      List.not_mem_nil, -Prod.mk_zero_zero, -Prod.mk_one_one]
  · norm_num [resetRemaining, p7Tasks]

end Ceat

namespace Process

/-- `Task` from `process.py`: two per-core execution requirements and the
period; utilization on core c is `execs[c] / period`, share on core c is
utilization × frame size (`get_shares`). -/
structure Task where
  id : ℕ
  execs : List ℚ
  period : ℚ

def Task.get_utilizations (t : Task) : List ℚ :=
  t.execs.map (fun e => e / t.period)

def Task.utilization (t : Task) (c : ℕ) : ℚ :=
  Ceat.nthQ 0 t.get_utilizations c

def Task.share (t : Task) (c : ℕ) (frame_size : ℚ) : ℚ :=
  t.utilization c * frame_size

/-- `Cluster` from `process.py`, restricted to the fields
`construct_schedule` reads.  `cluster.tasks` is a Python `set`; it is
modelled as a list giving the enumeration order seen by `sorted` (a stable
sort, so only the relative order of ratio ties depends on it). -/
structure Cluster where
  core1 : ℕ
  core2 : ℕ
  tasks : List Task

/-- `sorted(cluster.tasks, key=u(core1)/u(core2))` — Python's sort is a
stable comparison sort, here realized as a stable insertion sort. -/
def sortByRatio (cl : Cluster) : List Task :=
  List.insertionSort
    (fun a b => a.utilization cl.core1 / a.utilization cl.core2
      ≤ b.utilization cl.core1 / b.utilization cl.core2) cl.tasks

/-- Lines 224-232 of `process.py`: pop tasks from the front onto core1
while core1's remaining capacity is > 0 and the front task is no more
expensive on core1 than on core2.  Returns (popped tasks, rest, final
capacity). -/
def core1Loop (c1 c2 : ℕ) (frame_size : ℚ) :
    List Task → ℚ → List Task × List Task × ℚ
  | [], cap => ([], [], cap)
  | t :: ts, cap =>
      if 0 < cap ∧ t.utilization c1 ≤ t.utilization c2 then
        (t :: (core1Loop c1 c2 frame_size ts (cap - t.share c1 frame_size)).1,
         (core1Loop c1 c2 frame_size ts (cap - t.share c1 frame_size)).2.1,
         (core1Loop c1 c2 frame_size ts (cap - t.share c1 frame_size)).2.2)
      else ([], t :: ts, cap)

/-- Lines 234-237 of `process.py`: pop tasks from the back onto core2
while core2's remaining capacity is > 0 — modelled as popping the front of
the reversed rest. -/
def core2Loop (c2 : ℕ) (frame_size : ℚ) :
    List Task → ℚ → List Task × List Task × ℚ
  | [], cap => ([], [], cap)
  | t :: ts, cap =>
      if 0 < cap then
        (t :: (core2Loop c2 frame_size ts (cap - t.share c2 frame_size)).1,
         (core2Loop c2 frame_size ts (cap - t.share c2 frame_size)).2.1,
         (core2Loop c2 frame_size ts (cap - t.share c2 frame_size)).2.2)
      else ([], t :: ts, cap)

structure ClusterSchedule where
  onCore1 : List Task
  onCore2 : List Task
  leftover : List Task
  cap1 : ℚ
  cap2 : ℚ

/-- The per-cluster body of `Scheduler.construct_schedule` (lines 213-241
of `process.py`), with the cluster's two `rem_cap` entries passed in and
returned.  `leftover` is the content of `tasks_sorted` after both loops —
the §4.4 overflow, which the code leaves unassigned. -/
def construct_schedule_cluster (cl : Cluster) (frame_size : ℚ)
    (cap1 cap2 : ℚ) : ClusterSchedule :=
  ⟨(core1Loop cl.core1 cl.core2 frame_size (sortByRatio cl) cap1).1,
   (core2Loop cl.core2 frame_size
     (core1Loop cl.core1 cl.core2 frame_size (sortByRatio cl) cap1).2.1.reverse cap2).1,
   (core2Loop cl.core2 frame_size
     (core1Loop cl.core1 cl.core2 frame_size (sortByRatio cl) cap1).2.1.reverse cap2).2.1.reverse,
   (core1Loop cl.core1 cl.core2 frame_size (sortByRatio cl) cap1).2.2,
   (core2Loop cl.core2 frame_size
     (core1Loop cl.core1 cl.core2 frame_size (sortByRatio cl) cap1).2.1.reverse cap2).2.2⟩

theorem core1Loop_split (c1 c2 : ℕ) (F : ℚ) :
    ∀ (l : List Task) (cap : ℚ),
      l = (core1Loop c1 c2 F l cap).1 ++ (core1Loop c1 c2 F l cap).2.1
  | [], cap => rfl
  | t :: ts, cap => by
      rw [core1Loop]
      split
      · simp only [List.cons_append]
        exact congrArg (List.cons t) (core1Loop_split c1 c2 F ts _)
      · simp

theorem core2Loop_split (c2 : ℕ) (F : ℚ) :
    ∀ (l : List Task) (cap : ℚ),
      l = (core2Loop c2 F l cap).1 ++ (core2Loop c2 F l cap).2.1
  | [], cap => rfl
  | t :: ts, cap => by
      rw [core2Loop]
      split
      · simp only [List.cons_append]
        exact congrArg (List.cons t) (core2Loop_split c2 F ts _)
      · simp

/-- Scenario C tasks: periods 10, utilization vectors [0.5, 0.9] (A and
B — cheaper on core1) and [0.9, 0.2] (C — cheaper on core2). -/
def taskA : Task := ⟨0, [5, 9], 10⟩

def taskB : Task := ⟨1, [5, 9], 10⟩

def taskC : Task := ⟨2, [9, 2], 10⟩

end Process

namespace Process

/-- C8: the intra-cluster scheduler takes a prefix of the ratio-sorted
task list onto core1 and a suffix onto core2 (first conjunct: the sorted
list always decomposes as core1-tasks ++ leftover ++ reversed core2-tasks);
and on Scenario C — A, B cheaper on core1, C cheaper on core2, core1's
capacity exhausted exactly after A and B — C lands on core2 and the
overflow is empty. -/
theorem c8_intra_cluster_schedule :
    (∀ (cl : Cluster) (F cap1 cap2 : ℚ),
        sortByRatio cl
          = (construct_schedule_cluster cl F cap1 cap2).onCore1
            ++ (construct_schedule_cluster cl F cap1 cap2).leftover
            ++ (construct_schedule_cluster cl F cap1 cap2).onCore2.reverse)
    ∧ construct_schedule_cluster ⟨0, 1, [taskA, taskB, taskC]⟩ 10 10 10
        = ⟨[taskA, taskB], [taskC], [], 0, 8⟩ := by
  constructor
  · intro cl F cap1 cap2
    have h1 := core1Loop_split cl.core1 cl.core2 F (sortByRatio cl) cap1
    have h2 := core2Loop_split cl.core2 F
      ((core1Loop cl.core1 cl.core2 F (sortByRatio cl) cap1).2.1.reverse) cap2
    have h3 : (core1Loop cl.core1 cl.core2 F (sortByRatio cl) cap1).2.1
        = (core2Loop cl.core2 F
              ((core1Loop cl.core1 cl.core2 F (sortByRatio cl) cap1).2.1.reverse) cap2).2.1.reverse
          ++ (core2Loop cl.core2 F
              ((core1Loop cl.core1 cl.core2 F (sortByRatio cl) cap1).2.1.reverse) cap2).1.reverse := by
      have h4 := congrArg List.reverse h2
      rw [List.reverse_reverse, List.reverse_append] at h4
      exact h4
    show sortByRatio cl
      = (core1Loop cl.core1 cl.core2 F (sortByRatio cl) cap1).1
        ++ (core2Loop cl.core2 F
            ((core1Loop cl.core1 cl.core2 F (sortByRatio cl) cap1).2.1.reverse) cap2).2.1.reverse
        ++ (core2Loop cl.core2 F
            ((core1Loop cl.core1 cl.core2 F (sortByRatio cl) cap1).2.1.reverse) cap2).1.reverse
    rw [List.append_assoc, ← h3]
    exact h1
  · norm_num [construct_schedule_cluster, sortByRatio, core1Loop, core2Loop,
      List.insertionSort, List.orderedInsert, Task.utilization, Task.get_utilizations,
      Task.share, Ceat.nthQ, taskA, taskB, taskC, ClusterSchedule.mk.injEq, Task.mk.injEq]

end Process

namespace Ceat

theorem c4_partition_witness :
    clusterCount [(⟨0, 1, 21/2, [1, 0, 2]⟩ : Cluster)] 0 = 1 :=
  c4_partition scenA 10 [⟨0, 1, 21/2, [1, 0, 2]⟩] scenA_eval 0 (by decide)

end Ceat
